import Mathlib

set_option maxRecDepth 4000

/-!
Verification of the cff-chart-prototype time-series pipeline.

This file is a shallow embedding, in Lean, of the client-side data
pipeline of the repository:

* `src/client/javascripts/historic-data.js` — CSV parsing
  (`parseHistoricCSV`), merge with precedence (`mergeData`), range
  filtering (`filterDataByTimeRange`) and downsampling
  (`downsampleForStyleB`);
* `src/client/javascripts/utils.js` — the Douglas-Peucker line
  simplifier (`simplify`);
* `src/client/javascripts/line-chart-refactored.js` — the Processing
  phase of the renderer (`processData` and its helpers, in particular
  `markFirstForecastSignificance`).

Modelling conventions:

* JavaScript numbers are modelled as `ℚ` (the code never relies on
  float rounding for the properties proved here; all comparisons are
  order comparisons and the Douglas-Peucker arithmetic takes no square
  root).
* `dateTime` fields are strings, as in the code.  `new Date(s).getTime()`
  is modelled by `parseDT : String → Option ℕ` (milliseconds since the
  Unix epoch).  The model supports the timestamp format used by the
  repository's CSV interface and tests, `YYYY-MM-DD` optionally followed
  by `THH:MM:SS` and an optional trailing `Z`, for years 1970–9999; any
  other string is `none`, modelling an Invalid Date (`NaN` timestamp).
  The JavaScript engine interprets zone-less date-times in the local
  zone; the model fixes the locale to UTC, which only shifts every
  parsed value by a constant and is invisible to the claims below.
* `Date.now()` / `new Date()` reads of the clock are made explicit: the
  embedded functions take the current instant `now : ℕ` as an argument.
* Where a sort comparator would receive `NaN` (an unparseable date) the
  JavaScript runtime treats the comparison result as `0`; the model
  totalises the sort key with `.getD 0`.  All concrete inputs used in
  this development have parseable timestamps.
-/

/-! ## Time arithmetic (constants from historic-data.js) -/

def MS_PER_SECOND : ℕ := 1000

def SECONDS_PER_MINUTE : ℕ := 60

def MINUTES_PER_HOUR : ℕ := 60

def HOURS_PER_DAY : ℕ := 24

def DAYS_PER_YEAR : ℕ := 365

def FIVE_YEARS : ℕ := 5

def FIVE_DAYS : ℕ := 5

def THIRTY_DAYS : ℕ := 30

def SIX_MONTHS : ℕ := 6

def MS_PER_MINUTE : ℕ := SECONDS_PER_MINUTE * MS_PER_SECOND

def MS_PER_HOUR : ℕ := MINUTES_PER_HOUR * MS_PER_MINUTE

def MS_PER_DAY : ℕ := HOURS_PER_DAY * MS_PER_HOUR

def FIVE_YEARS_MS : ℕ := FIVE_YEARS * DAYS_PER_YEAR * MS_PER_DAY

def FOUR_HOURS_MS : ℕ := 4 * MINUTES_PER_HOUR * SECONDS_PER_MINUTE * MS_PER_SECOND

/-- Gregorian leap-year test. -/
def isLeapYear (y : ℕ) : Bool :=
  (y % 4 == 0 && y % 100 != 0) || y % 400 == 0

/-- Number of days in month `m` (1–12) of year `y`. -/
def daysInMonth (y m : ℕ) : ℕ :=
  if m = 2 then (if isLeapYear y then 29 else 28)
  else if m = 4 ∨ m = 6 ∨ m = 9 ∨ m = 11 then 30
  else 31

/-- Days from 1970-01-01 to `y`-01-01, for `y ≥ 1970`. -/
def daysBeforeYear (y : ℕ) : ℕ :=
  (List.range (y - 1970)).foldl
    (fun acc i => acc + (if isLeapYear (1970 + i) then 366 else 365)) 0

/-- Days from `y`-01-01 to `y`-`m`-01. -/
def daysBeforeMonth (y m : ℕ) : ℕ :=
  (List.range (m - 1)).foldl (fun acc i => acc + daysInMonth y (i + 1)) 0

/-- Days since the Unix epoch of the civil date `y`-`m`-`d`. -/
def epochDays (y m d : ℕ) : ℕ :=
  daysBeforeYear y + daysBeforeMonth y m + (d - 1)

/-- Value of a digit string. -/
def digitsVal (cs : List Char) : ℕ :=
  cs.foldl (fun acc c => acc * 10 + (c.toNat - 48)) 0

/-! ## Character-level string utilities

The JavaScript string operations the pipeline uses (`trim`,
single-separator `split`, `replaceAll('"', '')`) are modelled
structurally on the character list of a `String`, so that every
definition evaluates by kernel reduction. -/

/-- Whitespace recognised by `String.prototype.trim` (the whitespace
characters that occur in this data). -/
def isSpaceChar (c : Char) : Bool :=
  c == ' ' || c == '\t' || c == '\n' || c == '\r'

/-- Trim whitespace from both ends of a character list. -/
def trimChars (cs : List Char) : List Char :=
  ((cs.dropWhile isSpaceChar).reverse.dropWhile isSpaceChar).reverse

/-- Model of `String.prototype.trim`. -/
def strTrim (s : String) : String :=
  (trimChars s.toList).asString

/-- Split a character list at every occurrence of `sep`
(`String.prototype.split` with a single-character separator: the result
has one part more than there are separator occurrences). -/
def splitOnChar (sep : Char) : List Char → List (List Char)
  | [] => [[]]
  | c :: rest =>
    let r := splitOnChar sep rest
    if c = sep then [] :: r else (c :: r.headI) :: r.tail

/-- Model of `String.prototype.split` with a single-character separator. -/
def splitStr (sep : Char) (s : String) : List String :=
  (splitOnChar sep s.toList).map List.asString

/-- Model of `field.replaceAll('"', '').trim()`, applied to every header
and data field of the CSV. -/
def cleanField (s : String) : String :=
  (trimChars (s.toList.filter (fun c => !(c == '"')))).asString

/-- Value of a non-empty all-digit character list; `none` otherwise. -/
def digitsToNat? (cs : List Char) : Option ℕ :=
  if cs ≠ [] ∧ cs.all Char.isDigit then some (digitsVal cs) else none

/-- Parse `"YYYY-MM-DD"` to days since the epoch; `none` if malformed. -/
def parseYMD (cs : List Char) : Option ℕ :=
  match splitOnChar '-' cs with
  | [ys, ms, ds] =>
    match digitsToNat? ys, digitsToNat? ms, digitsToNat? ds with
    | some y, some m, some d =>
      if ys.length = 4 ∧ ms.length = 2 ∧ ds.length = 2 ∧ 1970 ≤ y ∧
          1 ≤ m ∧ m ≤ 12 ∧ 1 ≤ d ∧ d ≤ daysInMonth y m
      then some (epochDays y m d) else none
    | _, _, _ => none
  | _ => none

/-- Parse `"HH:MM:SS"` to milliseconds within the day; `none` if malformed. -/
def parseClock (cs : List Char) : Option ℕ :=
  match splitOnChar ':' cs with
  | [hs, ms, ss] =>
    match digitsToNat? hs, digitsToNat? ms, digitsToNat? ss with
    | some h, some mi, some sec =>
      if hs.length = 2 ∧ ms.length = 2 ∧ ss.length = 2 ∧
          h < 24 ∧ mi < 60 ∧ sec < 60
      then some (((h * MINUTES_PER_HOUR + mi) * SECONDS_PER_MINUTE + sec) * MS_PER_SECOND)
      else none
    | _, _, _ => none
  | _ => none

/-- Model of `new Date(s).getTime()`: milliseconds since the epoch, or
`none` for an Invalid Date.  See the module comment for the supported
format and the UTC-locale convention. -/
def parseDT (s : String) : Option ℕ :=
  let cs := s.toList
  let cs := if cs.getLast? = some 'Z' then cs.dropLast else cs
  match splitOnChar 'T' cs with
  | [d] => (parseYMD d).map (· * MS_PER_DAY)
  | [d, t] =>
    match parseYMD d, parseClock t with
    | some days, some ms => some (days * MS_PER_DAY + ms)
    | _, _ => none
  | _ => none

/-! ## Number parsing -/

/-- Model of `Number.parseFloat` on an already-trimmed field: optional
sign, digits, optional fractional part; trailing garbage is ignored, as
in JavaScript.  `none` models `NaN`.  (Exponent and `Infinity` forms do
not occur in this data and are not modelled.) -/
def parseFloatQ (s : String) : Option ℚ :=
  let signed : ℚ × List Char :=
    match s.toList with
    | '-' :: rest => (-1, rest)
    | '+' :: rest => (1, rest)
    | cs => (1, cs)
  let intPart := signed.2.takeWhile Char.isDigit
  let afterInt := signed.2.dropWhile Char.isDigit
  let fracPart : List Char :=
    match afterInt with
    | '.' :: rest2 => rest2.takeWhile Char.isDigit
    | _ => []
  if intPart.length = 0 ∧ fracPart.length = 0 then none
  else
    some (signed.1 * ((digitsVal intPart : ℚ) +
      (digitsVal fracPart : ℚ) / ((10 : ℚ) ^ fracPart.length)))

/-! ## Data model -/

/-- One telemetry observation, as the JavaScript object literals used
throughout the pipeline.  `uval` models the `_` display-compatibility
field written by the CSV parser; `err`, `isSignificant` and `ptype`
(`type` in the source) model the renderer-facing fields.  Absent fields
are `none` / `false`, matching `undefined` for the checks the code
performs on them. -/
structure Point where
  dateTime : String
  value : ℚ
  uval : Option ℚ := none
  err : Bool := false
  isSignificant : Option Bool := none
  ptype : Option String := none
deriving DecidableEq, Repr

instance : Inhabited Point := ⟨{ dateTime := "", value := 0 }⟩

/-- Sort key of a point: its parsed timestamp, with an Invalid Date
totalised to `0` (the runtime treats a `NaN` comparator result as `0`). -/
def sortKey (p : Point) : ℕ :=
  (parseDT p.dateTime).getD 0

/-- Comparator of the `merged.sort((a, b) => new Date(a.dateTime) - new Date(b.dateTime))`
calls, as the `≤` relation on sort keys.  JavaScript `Array.prototype.sort`
is a stable sort whose output is ordered by the comparator; a stable
sorted sort is unique, so it is modelled by insertion sort. -/
def dateLe (a b : Point) : Prop :=
  sortKey a ≤ sortKey b

instance : DecidableRel dateLe :=
  fun a b => Nat.decLe (sortKey a) (sortKey b)

instance : IsTotal Point dateLe :=
  ⟨fun a b => Nat.le_total (sortKey a) (sortKey b)⟩

instance : IsTrans Point dateLe :=
  ⟨fun _ _ _ => Nat.le_trans⟩

/-! ## historic-data.js -/

/-- Body of the data-row loop of `parseHistoricCSV` (historic-data.js
lines 64–90), acting on the accumulated `data` array.  `fiveYearsAgo`
is the precomputed cutoff.  A row is skipped when empty, when its
`dateTime` field is empty, when its `value` field does not parse
(`Number.isNaN`), or when its `dateTime` parses to an instant before the
cutoff; note that a non-empty `dateTime` that does **not** parse passes
the `date < fiveYearsAgo` test (`NaN < x` is false) and is retained. -/
def parseRow (dateTimeIndex valueIndex : ℕ) (fiveYearsAgo : ℤ)
    (data : List Point) (rawLine : String) : List Point :=
  let line := strTrim rawLine
  if line = "" then data
  else
    let values := (splitStr ',' line).map cleanField
    let dateTime := values.getD dateTimeIndex ""
    if dateTime = "" then data
    else
      match parseFloatQ (values.getD valueIndex "") with
      | none => data
      | some value =>
        match parseDT dateTime with
        | some t =>
          if (t : ℤ) < fiveYearsAgo then data
          else data ++ [{ dateTime := dateTime, value := value, uval := some value }]
        | none => data ++ [{ dateTime := dateTime, value := value, uval := some value }]

/-- The line list `csvContent.trim().split('\n')` of `parseHistoricCSV`. -/
def csvLines (csvContent : String) : List String :=
  splitStr '\n' (strTrim csvContent)

/-- The parsed header row of `parseHistoricCSV`:
`lines[0].split(',').map(h => h.replaceAll('"', '').trim())`. -/
def csvHeader (csvContent : String) : List String :=
  (splitStr ',' (csvLines csvContent).headI).map cleanField

/-- Model of `parseHistoricCSV` (historic-data.js lines 44–93).  The
implicit `Date.now()` read is the explicit argument `now`; a thrown
`Error` is modelled as `Except.error` carrying the message. -/
def parseHistoricCSV (now : ℕ) (csvContent : String) : Except String (List Point) :=
  let lines := csvLines csvContent
  if lines.length < 2 then .error "CSV file is empty or invalid"
  else
    let header := csvHeader csvContent
    match List.findIdx? (· = "dateTime") header, List.findIdx? (· = "value") header with
    | some dateTimeIndex, some valueIndex =>
      let fiveYearsAgo : ℤ := (now : ℤ) - (FIVE_YEARS_MS : ℤ)
      .ok (lines.tail.foldl (parseRow dateTimeIndex valueIndex fiveYearsAgo) [])
    | _, _ => .error "CSV must contain \"dateTime\" and \"value\" columns"

/-- Model of `mergeData` (historic-data.js lines 165–192).  The
`realtimeMap` keyed by the `dateTime` strings of the live points is
modelled by the `List.any` test; `merged.sort(...)` is a stable sort by
parsed timestamp. -/
def mergeData (historicData realtimeData : List Point) : List Point :=
  if historicData = [] then realtimeData
  else if realtimeData = [] then historicData
  else
    let merged := realtimeData ++
      historicData.filter (fun item => !(realtimeData.any (fun r => r.dateTime == item.dateTime)))
    List.insertionSort dateLe merged

/-- Filter predicate `new Date(item.dateTime) >= cutoffDate`; an Invalid
Date compares `false` (NaN comparison) and is dropped. -/
def keepSince (cutoff : ℤ) (item : Point) : Bool :=
  match parseDT item.dateTime with
  | some t => cutoff ≤ (t : ℤ)
  | none => false

/-- Model of `filterDataByTimeRange` (historic-data.js lines 197–228),
with the `new Date()` clock read as the explicit argument `now`. -/
def filterDataByTimeRange (now : ℕ) (data : List Point) (range : String) : List Point :=
  if data = [] then []
  else if range = "5d" then
    data.filter (keepSince ((now : ℤ) - (FIVE_DAYS * MS_PER_DAY : ℕ)))
  else if range = "1m" then
    data.filter (keepSince ((now : ℤ) - (THIRTY_DAYS * MS_PER_DAY : ℕ)))
  else if range = "6m" then
    data.filter (keepSince ((now : ℤ) - (SIX_MONTHS * THIRTY_DAYS * MS_PER_DAY : ℕ)))
  else if range = "1y" then
    data.filter (keepSince ((now : ℤ) - (DAYS_PER_YEAR * MS_PER_DAY : ℕ)))
  else if range = "5y" then
    data.filter (keepSince ((now : ℤ) - (FIVE_YEARS_MS : ℕ)))
  else data

/-- Lookback window, in milliseconds, of each recognised range token of
`filterDataByTimeRange` (`none` for the default branch). -/
def lookbackMs (range : String) : Option ℕ :=
  if range = "5d" then some (FIVE_DAYS * MS_PER_DAY)
  else if range = "1m" then some (THIRTY_DAYS * MS_PER_DAY)
  else if range = "6m" then some (SIX_MONTHS * THIRTY_DAYS * MS_PER_DAY)
  else if range = "1y" then some (DAYS_PER_YEAR * MS_PER_DAY)
  else if range = "5y" then some FIVE_YEARS_MS
  else none

/-- The calendar-hour bucket of a timestamp:
`new Date(y, month, day, hours).getTime()` zeroes every sub-hour field,
i.e. floors the timestamp to the hour (UTC-locale model). -/
def hourKeyMs (t : ℕ) : ℕ :=
  t / MS_PER_HOUR * MS_PER_HOUR

/-- The fixed 4-hour bucket `Math.floor(timestamp / FOUR_HOURS_MS) * FOUR_HOURS_MS`. -/
def fourHourKey (t : ℕ) : ℕ :=
  t / FOUR_HOURS_MS * FOUR_HOURS_MS

/-- Day of week of a timestamp, Sunday = 0 (`Date.prototype.getDay`);
1970-01-01 was a Thursday. -/
def dayOfWeek (t : ℕ) : ℕ :=
  (t / MS_PER_DAY + 4) % 7

/-- Start of the calendar week (Sunday 00:00) containing a timestamp:
`weekStart.setDate(date.getDate() - date.getDay()); weekStart.setHours(0,0,0,0)`
shifts back `getDay()` days and floors to the day. -/
def weekKeyMs (t : ℕ) : ℤ :=
  ((t / MS_PER_DAY : ℕ) - (dayOfWeek t : ℤ)) * (MS_PER_DAY : ℕ)

/-- Week bucket of a point. -/
def wk (p : Point) : ℤ :=
  weekKeyMs (sortKey p)

/-- The first-point-per-bucket fold shared by the `6m` (hour bucket)
and `1y` (4-hour bucket) branches of `downsampleForStyleB`: keep an
item whenever its bucket differs from the previous item's bucket, the
`lastHour` / `lastInterval` variable starting as `null`. -/
def bucketStep (key : ℕ → ℕ) (st : List Point × Option ℕ) (item : Point) :
    List Point × Option ℕ :=
  let b := key (sortKey item)
  if st.2 ≠ some b then (st.1 ++ [item], some b) else st

def keepFirstPerBucket (key : ℕ → ℕ) (data : List Point) : List Point :=
  (data.foldl (bucketStep key) (([] : List Point), (none : Option ℕ))).1

/-- Association-list lookup, modelling `Map.prototype.get` on the
`weeklyGroups` map (first matching key). -/
def wlookup (k : ℤ) : List (ℤ × Point) → Option Point
  | [] => none
  | (k', p) :: rest => if k' = k then some p else wlookup k rest

/-- One step of the `5y` branch of `downsampleForStyleB`:
`if (!weeklyGroups.has(weekKey) || item.value > weeklyGroups.get(weekKey).value) weeklyGroups.set(weekKey, item)`.
A `Map` keeps insertion order, and `set` on an existing key replaces in
place, so the map is an association list updated in place or extended
at the end. -/
def weekUpd (m : List (ℤ × Point)) (item : Point) : List (ℤ × Point) :=
  let k := wk item
  match wlookup k m with
  | none => m ++ [(k, item)]
  | some cur =>
    if cur.value < item.value then
      m.map (fun kv => if kv.1 = k then (k, item) else kv)
    else m

/-- The `weeklyGroups` map after processing `data`. -/
def weekGroups (data : List Point) : List (ℤ × Point) :=
  data.foldl weekUpd []

/-- Model of `downsampleForStyleB` (historic-data.js lines 251–308). -/
def downsampleForStyleB (data : List Point) (range : String) : List Point :=
  if data = [] then []
  else if range = "5d" ∨ range = "1m" then data
  else if range = "6m" then keepFirstPerBucket hourKeyMs data
  else if range = "1y" then keepFirstPerBucket fourHourKey data
  else if range = "5y" then
    List.insertionSort dateLe ((weekGroups data).map Prod.snd)
  else data

/-! ## utils.js — Douglas-Peucker simplifier -/

/-- Mark a point significant: the `{ ...points[i], isSignificant: true }`
spread of the simplifier output loop. -/
def setSig (p : Point) : Point :=
  { p with isSignificant := some true }

/-- Model of `getSqSegDist` (utils.js lines 61–83): squared distance
from `p` to the segment `p1`–`p2`, with `value` as one axis and the
epoch-millisecond timestamp as the other. -/
def getSqSegDist (p p1 p2 : Point) : ℚ :=
  let x0 : ℚ := p1.value
  let y0 : ℚ := (sortKey p1 : ℚ)
  let dx : ℚ := p2.value - x0
  let dy : ℚ := (sortKey p2 : ℚ) - y0
  let xy : ℚ × ℚ :=
    if dx ≠ 0 ∨ dy ≠ 0 then
      let t := ((p.value - x0) * dx + ((sortKey p : ℚ) - y0) * dy) / (dx * dx + dy * dy)
      if 1 < t then (p2.value, (sortKey p2 : ℚ))
      else if 0 < t then (x0 + dx * t, y0 + dy * t)
      else (x0, y0)
    else (x0, y0)
  let ddx := p.value - xy.1
  let ddy := (sortKey p : ℚ) - xy.2
  ddx * ddx + ddy * ddy

/-- The inner scan of `simplifyDouglasPeucker`: over
`i = first+1 … last-1`, the maximum `getSqSegDist` and the index
attaining it (`maxSqDist` starts at `0`, `index` at `0`, update on
strict improvement). -/
def scanMax (points : List Point) (first last : ℕ) : ℚ × ℕ :=
  (List.range' (first + 1) (last - (first + 1))).foldl
    (fun acc i =>
      let sq := getSqSegDist (points.getD i default) (points.getD first default)
        (points.getD last default)
      if acc.1 < sq then (sq, i) else acc)
    (0, 0)

/-- The `while (stack.length)` loop of `simplifyDouglasPeucker`.  The
stack of `(first, last)` index pairs is a list with its head as top; the
0/1 `markers` array is the set of marked indices.  The loop is driven by
fuel: each processed interval either pushes nothing or marks a fresh
interior index and pushes its two sub-intervals, so the loop runs at
most `2 * len + 1` times and the fuel supplied by `simplify` below is
never exhausted. -/
def dpLoop (points : List Point) (sqTolerance : ℚ) :
    ℕ → List (ℕ × ℕ) → Finset ℕ → Finset ℕ
  | 0, _, markers => markers
  | _ + 1, [], markers => markers
  | fuel + 1, (first, last) :: stack, markers =>
    let m := scanMax points first last
    if sqTolerance < m.1 then
      dpLoop points sqTolerance fuel ((m.2, last) :: (first, m.2) :: stack)
        (insert m.2 markers)
    else
      dpLoop points sqTolerance fuel stack markers

/-- The final marker set computed by the Douglas-Peucker loop:
`tolerance` squared once up front, the stack seeded with the full index
range, endpoints pre-marked. -/
def simplifyMarkers (points : List Point) (tolerance : ℚ) : Finset ℕ :=
  dpLoop points (tolerance * tolerance)
    ((points.length + 2) * (points.length + 2))
    [(0, points.length - 1)] ({0, points.length - 1} : Finset ℕ)

/-- Model of `simplify` (utils.js lines 13–86): input returned unchanged
when it has at most two points, otherwise iterative Douglas-Peucker with
both endpoints pre-marked, returning the marked points in order, each
flagged `isSignificant`. -/
def simplify (points : List Point) (tolerance : ℚ) : List Point :=
  if points.length ≤ 2 then points
  else
    (points.enum.filter (fun ip => ip.1 ∈ simplifyMarkers points tolerance)).map
      (fun ip => setSig ip.2)

/-! ## line-chart-refactored.js — Processing phase -/

def TOLERANCE_TIDE : ℚ := 10000000

def TOLERANCE_DEFAULT : ℚ := 1000000

/-- The `TelemetrySeries`-shaped `dataCache` consumed by `processData`
(only the fields the Processing phase reads). -/
structure DataCache where
  observed : List Point
  forecast : List Point
  type : String

/-- Model of `simplifyByType` (line-chart-refactored.js lines 330–336). -/
def simplifyByType (data : List Point) (dataType : String) : List Point :=
  if dataType = "river" then data
  else simplify data (if dataType = "tide" then TOLERANCE_TIDE else TOLERANCE_DEFAULT)

/-- Model of `markFirstForecastSignificance` (line-chart-refactored.js
lines 341–350): when the observed sequence is non-empty, set the first
forecast point's `isSignificant` to whether its parsed timestamp or its
value differs from observed element 0 (the newest observed reading in
API order).  The in-place mutation of `forecast[0]` is modelled by
returning the updated list.  (The source reads `forecast[0]` without an
emptiness check; its only caller passes a non-empty list, and the model
returns an empty forecast unchanged.) -/
def markFirstForecastSignificance (observed forecast : List Point) : List Point :=
  match observed with
  | [] => forecast
  | latestObserved :: _ =>
    match forecast with
    | [] => forecast
    | firstForecast :: rest =>
      let isSame := sortKey latestObserved == sortKey firstForecast &&
        latestObserved.value == firstForecast.value
      { firstForecast with isSignificant := some (!isSame) } :: rest

/-- Model of `processObservedData` (line-chart-refactored.js lines
355–359): simplify by type, drop `err` points, tag as observed, reverse
into chronological order. -/
def processObservedData (observed : List Point) (dataType : String) : List Point :=
  let processed := simplifyByType observed dataType
  let filtered := processed.filter (fun l => !l.err)
  (filtered.map (fun l => { l with ptype := some "observed" })).reverse

/-- Model of `processForecastData` (line-chart-refactored.js lines
364–368): simplify by type, mark the boundary point, tag as forecast. -/
def processForecastData (forecast : List Point) (dataType : String)
    (observed : List Point) : List Point :=
  let processed := simplifyByType forecast dataType
  let marked := markFirstForecastSignificance observed processed
  marked.map (fun l => { l with ptype := some "forecast" })

/-- Result record of `processData`. -/
structure ProcessedData where
  lines : List Point
  observedPoints : List Point
  forecastPoints : List Point

/-- Model of `processData` (line-chart-refactored.js lines 373–387);
the `dataCache.observed?.length` truthiness guards become emptiness
tests. -/
def processData (dataCache : DataCache) : ProcessedData :=
  let observedPoints :=
    if dataCache.observed ≠ [] then
      processObservedData dataCache.observed dataCache.type
    else []
  let forecastPoints :=
    if dataCache.forecast ≠ [] then
      processForecastData dataCache.forecast dataCache.type dataCache.observed
    else []
  ⟨observedPoints ++ forecastPoints, observedPoints, forecastPoints⟩

/-- Claim-side abbreviation: the latest observed reading, element 0 of
the observed array in the newest-first order supplied by the
collaborator. -/
def latestObservedPoint (dc : DataCache) : Point :=
  dc.observed.headI

/-- Claim-side abbreviation: the first forecast point. -/
def firstForecastPoint (dc : DataCache) : Point :=
  dc.forecast.headI

/-- Claim-side predicate: the first forecast point's `(dateTime, value)`
pair differs from the latest observed point's (timestamps compared as
parsed instants, as the code compares `getTime()` results). -/
def firstForecastDiffersB (dc : DataCache) : Bool :=
  !(sortKey (latestObservedPoint dc) == sortKey (firstForecastPoint dc) &&
    (latestObservedPoint dc).value == (firstForecastPoint dc).value)

/-! ## Concrete sample data for witnesses and counterexamples -/

/-- The §8 scenario CSV: one row six years, one row four years before
2026-01-01T00:00:00 (epoch ms 1767225600000). -/
def csvScenario : String :=
  "dateTime,value\n2020-01-01T00:00:00,1\n2022-01-01T00:00:00,2"

/-- A CSV whose single data row has a non-empty `dateTime` that is not a
parseable date. -/
def csvBadDate : String :=
  "dateTime,value\nnot-a-date,5"

/-- Historic sample of the repository's merge test. -/
def histSample : List Point :=
  [{ dateTime := "2024-01-15T10:00:00", value := 1 },
   { dateTime := "2024-01-15T11:00:00", value := 2 }]

/-- Live sample of the repository's merge test. -/
def liveSample : List Point :=
  [{ dateTime := "2024-01-15T11:00:00", value := 5/2 },
   { dateTime := "2024-01-15T12:00:00", value := 3 }]

/-- One historic point, for the duplicate-timestamp counterexample. -/
def histDup : List Point :=
  [{ dateTime := "2024-01-15T10:00:00", value := 1 }]

/-- A live feed containing two points with the same timestamp. -/
def liveDup : List Point :=
  [{ dateTime := "2024-01-15T11:00:00", value := 2 },
   { dateTime := "2024-01-15T11:00:00", value := 3 }]

/-- A live feed that is not in ascending order. -/
def liveUnsorted : List Point :=
  [{ dateTime := "2024-01-15T12:00:00", value := 3 },
   { dateTime := "2024-01-15T11:00:00", value := 2 }]

/-- Seven quarter-hour points crossing two hour boundaries
(10:45–12:15), the §8 downsampling scenario. -/
def pts6m : List Point :=
  [{ dateTime := "2024-01-15T10:45:00", value := 1 },
   { dateTime := "2024-01-15T11:00:00", value := 2 },
   { dateTime := "2024-01-15T11:15:00", value := 3 },
   { dateTime := "2024-01-15T11:30:00", value := 4 },
   { dateTime := "2024-01-15T11:45:00", value := 5 },
   { dateTime := "2024-01-15T12:00:00", value := 6 },
   { dateTime := "2024-01-15T12:15:00", value := 7 }]

/-- Four points spread over two calendar weeks (weeks starting Sunday
2023-12-31 and Sunday 2024-01-07), out of order, for the `5y` witness. -/
def pts5y : List Point :=
  [{ dateTime := "2024-01-10T10:00:00", value := 1 },
   { dateTime := "2024-01-03T10:00:00", value := 5 },
   { dateTime := "2024-01-11T10:00:00", value := 9 },
   { dateTime := "2024-01-04T10:00:00", value := 2 }]

/-- Four points with a spike, for the simplifier witness. -/
def ptsSpike : List Point :=
  [{ dateTime := "2024-01-15T10:00:00", value := 0 },
   { dateTime := "2024-01-15T10:15:00", value := 100 },
   { dateTime := "2024-01-15T10:30:00", value := 0 },
   { dateTime := "2024-01-15T10:45:00", value := 0 }]

/-- A two-point list, for the small-input branch of the simplifier. -/
def ptsPair : List Point :=
  [{ dateTime := "2024-01-15T10:00:00", value := 0 },
   { dateTime := "2024-01-15T10:15:00", value := 100 }]

/-- Ten-day / three-day / recent sample for the range-filter witness,
relative to 2024-01-15T10:00:00 (epoch ms 1705312800000). -/
def filterSample : List Point :=
  [{ dateTime := "2024-01-05T10:00:00", value := 1 },
   { dateTime := "2024-01-12T10:00:00", value := 2 },
   { dateTime := "2024-01-15T09:00:00", value := 3 }]

/-- A data cache with a non-empty observed (newest first) and forecast
sequence whose boundary values differ. -/
def dcSample : DataCache :=
  { observed := [{ dateTime := "2024-01-15T11:00:00", value := 5 },
                 { dateTime := "2024-01-15T10:00:00", value := 4 }],
    forecast := [{ dateTime := "2024-01-15T11:00:00", value := 11/2 },
                 { dateTime := "2024-01-15T12:00:00", value := 6 }],
    type := "river" }

/-- A single point, for the downsample-membership witness. -/
def dsPoint : Point :=
  { dateTime := "2024-01-15T10:00:00", value := 1 }

/-! ## Helper lemmas -/

lemma sorted_insertionSort_dateLe (l : List Point) :
    List.Sorted dateLe (List.insertionSort dateLe l) :=
  List.sorted_insertionSort dateLe l

lemma keepSince_mono {c1 c2 : ℤ} (hc : c2 ≤ c1) {p : Point}
    (h : keepSince c1 p = true) : keepSince c2 p = true := by
  unfold keepSince at *
  cases hdt : parseDT p.dateTime with
  | none => simp [hdt] at h
  | some t => simp only [hdt, decide_eq_true_eq] at *; omega

lemma filterDataByTimeRange_eq_filter {r : String} {d : ℕ}
    (h : lookbackMs r = some d) (now : ℕ) (data : List Point) :
    filterDataByTimeRange now data r =
      data.filter (keepSince ((now : ℤ) - (d : ℤ))) := by
  unfold lookbackMs at h
  unfold filterDataByTimeRange
  by_cases hd : data = [] <;>
    split_ifs at h with h1 h2 h3 h4 h5 <;>
      (try cases h) <;> simp_all

/-- C6: `filterDataByTimeRange` is monotonic in the range token: if the
lookback window of `r1` is contained in that of `r2` (both recognised
tokens), every point returned for `r1` is also returned for `r2`, for
the same input and the same current instant. -/
theorem filterDataByTimeRange_monotone (now : ℕ) (data : List Point)
    (r1 r2 : String) (d1 d2 : ℕ) (h1 : lookbackMs r1 = some d1)
    (h2 : lookbackMs r2 = some d2) (hle : d1 ≤ d2) :
    ∀ p ∈ filterDataByTimeRange now data r1, p ∈ filterDataByTimeRange now data r2 := by
  intro p hp
  rw [filterDataByTimeRange_eq_filter h1] at hp
  rw [filterDataByTimeRange_eq_filter h2]
  rw [List.mem_filter] at hp ⊢
  refine ⟨hp.1, keepSince_mono ?_ hp.2⟩
  omega

/-- Witness for C6 at a concrete input: a point inside the five-day
window is also in the one-year result. -/
theorem filterDataByTimeRange_monotone_witness :
    ({ dateTime := "2024-01-12T10:00:00", value := 2 } : Point) ∈
      filterDataByTimeRange 1705312800000 filterSample "1y" := by
  exact filterDataByTimeRange_monotone 1705312800000 filterSample "5d" "1y"
    (FIVE_DAYS * MS_PER_DAY) (DAYS_PER_YEAR * MS_PER_DAY) rfl rfl (by decide)
    _ (by decide)

/-- C9: seven quarter-hour points spanning the calendar hours 10, 11
and 12, downsampled with range `6m`, yield exactly three points, the
first input point of each hour bucket. -/
theorem downsample_sixMonth_hourly_scenario :
    downsampleForStyleB pts6m "6m" =
      [{ dateTime := "2024-01-15T10:45:00", value := 1 },
       { dateTime := "2024-01-15T11:00:00", value := 2 },
       { dateTime := "2024-01-15T12:00:00", value := 6 }] ∧
    pts6m.length = 7 ∧ (downsampleForStyleB pts6m "6m").length = 3 := by
  refine ⟨by decide, by decide, by decide⟩

lemma findIdx?_str_none_iff (xs : List String) (a : String) :
    List.findIdx? (· = a) xs = none ↔ a ∉ xs := by
  rw [List.findIdx?_eq_none_iff]
  constructor
  · intro h hmem
    have := h a hmem
    simp at this
  · intro hna x hx
    simp only [decide_eq_false_iff_not]
    exact fun he => hna (he ▸ hx)

/-- C7 (amended messages): `parseHistoricCSV` fails exactly when the
input has fewer than 2 lines (message `CSV file is empty or invalid`)
or the header lacks a `dateTime` or a `value` column (message
`CSV must contain "dateTime" and "value" columns`); on every other
input it returns a result, never an exception — per-row problems only
skip the row. -/
theorem parseHistoricCSV_error_spec (now : ℕ) (csv : String) (m : String) :
    parseHistoricCSV now csv = .error m ↔
      ((csvLines csv).length < 2 ∧ m = "CSV file is empty or invalid") ∨
      (2 ≤ (csvLines csv).length ∧
        ("dateTime" ∉ csvHeader csv ∨ "value" ∉ csvHeader csv) ∧
        m = "CSV must contain \"dateTime\" and \"value\" columns") := by
  unfold parseHistoricCSV
  by_cases hlen : (csvLines csv).length < 2
  · rw [if_pos hlen]
    simp only [Except.error.injEq]
    constructor
    · intro h
      exact Or.inl ⟨hlen, h.symm⟩
    · rintro (⟨_, hm⟩ | ⟨h2, _, _⟩)
      · exact hm.symm
      · omega
  · rw [if_neg hlen]
    rcases hdt : List.findIdx? (· = "dateTime") (csvHeader csv) with _ | i
    · simp only [hdt, Except.error.injEq]
      constructor
      · intro h
        exact Or.inr ⟨by omega, Or.inl ((findIdx?_str_none_iff _ _).mp hdt), h.symm⟩
      · rintro (⟨hl, _⟩ | ⟨_, _, hm⟩)
        · omega
        · exact hm.symm
    · rcases hv : List.findIdx? (· = "value") (csvHeader csv) with _ | j
      · simp only [hdt, hv, Except.error.injEq]
        constructor
        · intro h
          exact Or.inr ⟨by omega, Or.inr ((findIdx?_str_none_iff _ _).mp hv), h.symm⟩
        · rintro (⟨hl, _⟩ | ⟨_, _, hm⟩)
          · omega
          · exact hm.symm
      · simp only [hdt, hv]
        constructor
        · intro h
          exact absurd h (by simp)
        · rintro (⟨hl, _⟩ | ⟨_, hmiss, _⟩)
          · omega
          · rcases hmiss with hmiss | hmiss
            · exact absurd ((findIdx?_str_none_iff _ _).mpr hmiss) (by simp [hdt])
            · exact absurd ((findIdx?_str_none_iff _ _).mpr hmiss) (by simp [hv])

/-- Counterexample for the claimed C7 messages: the code's messages are
`CSV file is empty or invalid` (not `CSV is empty or invalid`) and
`CSV must contain "dateTime" and "value" columns` (with quoted column
names), as the repository's unit tests also assert. -/
theorem parseHistoricCSV_error_cex :
    parseHistoricCSV 0 "" = .error "CSV file is empty or invalid" ∧
    "CSV file is empty or invalid" ≠ "CSV is empty or invalid" ∧
    parseHistoricCSV 0 "measure,date\na,b" =
      .error "CSV must contain \"dateTime\" and \"value\" columns" ∧
    "CSV must contain \"dateTime\" and \"value\" columns" ≠
      "CSV must contain dateTime and value columns" := by
  exact ⟨rfl, by decide, rfl, by decide⟩

/-- Witness applying the C7 characterisation at a concrete input. -/
theorem parseHistoricCSV_error_spec_witness :
    parseHistoricCSV 0 "" = .error "CSV file is empty or invalid" :=
  (parseHistoricCSV_error_spec 0 "" "CSV file is empty or invalid").mpr
    (Or.inl ⟨by decide, rfl⟩)

lemma parseRow_length (dtI vI : ℕ) (c : ℤ) (acc : List Point) (line : String) :
    (parseRow dtI vI c acc line).length ≤ acc.length + 1 := by
  unfold parseRow
  dsimp only
  split
  · simp
  · split
    · simp
    · split
      · simp
      · split
        · split
          · simp
          · simp
        · simp

lemma foldl_parseRow_length (dtI vI : ℕ) (c : ℤ) :
    ∀ (rows : List String) (acc : List Point),
      (rows.foldl (parseRow dtI vI c) acc).length ≤ acc.length + rows.length := by
  intro rows
  induction rows with
  | nil => intro acc; simp
  | cons r rest ih =>
    intro acc
    have h1 := parseRow_length dtI vI c acc r
    have h2 := ih (parseRow dtI vI c acc r)
    simp only [List.foldl_cons, List.length_cons]
    omega

lemma mem_parseRow {dtI vI : ℕ} {c : ℤ} {acc : List Point} {line : String} {p : Point}
    (hp : p ∈ parseRow dtI vI c acc line) :
    p ∈ acc ∨ (p.dateTime ≠ "" ∧ ∀ t, parseDT p.dateTime = some t → c ≤ (t : ℤ)) := by
  unfold parseRow at hp
  dsimp only at hp
  split at hp
  · exact Or.inl hp
  · split at hp
    · exact Or.inl hp
    · split at hp
      · exact Or.inl hp
      · split at hp
        · rename_i t hdt
          split at hp
          · exact Or.inl hp
          · rename_i hlt
            rcases List.mem_append.mp hp with h | h
            · exact Or.inl h
            · rcases List.mem_singleton.mp h with rfl
              refine Or.inr ⟨by assumption, fun t' ht' => ?_⟩
              dsimp only at ht'
              rw [hdt] at ht'
              cases ht'
              omega
        · rename_i hdt
          rcases List.mem_append.mp hp with h | h
          · exact Or.inl h
          · rcases List.mem_singleton.mp h with rfl
            refine Or.inr ⟨by assumption, fun t' ht' => ?_⟩
            dsimp only at ht'
            rw [hdt] at ht'
            cases ht'

lemma mem_foldl_parseRow {dtI vI : ℕ} {c : ℤ} :
    ∀ {rows : List String} {acc : List Point} {p : Point},
      p ∈ rows.foldl (parseRow dtI vI c) acc →
      p ∈ acc ∨ (p.dateTime ≠ "" ∧ ∀ t, parseDT p.dateTime = some t → c ≤ (t : ℤ)) := by
  intro rows
  induction rows with
  | nil => intro acc p hp; exact Or.inl hp
  | cons r rest ih =>
    intro acc p hp
    rw [List.foldl_cons] at hp
    rcases ih hp with h | h
    · exact mem_parseRow h
    · exact Or.inr h

/-- C2 (amended): a successful parse returns at most one point per data
line, every returned point has a non-empty `dateTime`, and every
returned point **whose `dateTime` parses** parses to an instant no more
than 5×365 days before the parse-time instant; the 2-row six-years/
four-years scenario returns exactly the four-year-old row.  (A row with
a non-empty unparseable `dateTime` is retained: the five-year check
`date < fiveYearsAgo` is false for an Invalid Date.) -/
theorem parseHistoricCSV_fiveYear_spec (now : ℕ) (csv : String) (pts : List Point)
    (h : parseHistoricCSV now csv = .ok pts) :
    pts.length ≤ (csvLines csv).length - 1 ∧
    (∀ p ∈ pts, p.dateTime ≠ "") ∧
    (∀ p ∈ pts, ∀ t, parseDT p.dateTime = some t →
      (now : ℤ) - (FIVE_YEARS_MS : ℤ) ≤ (t : ℤ)) ∧
    parseHistoricCSV 1767225600000 csvScenario =
      .ok [{ dateTime := "2022-01-01T00:00:00", value := 2, uval := some 2 }] := by
  unfold parseHistoricCSV at h
  dsimp only at h
  split at h
  · exact absurd h (by simp)
  · rename_i hlen
    rcases hdt : List.findIdx? (· = "dateTime") (csvHeader csv) with _ | i <;>
      rw [hdt] at h
    · exact absurd h (by simp)
    · rcases hv : List.findIdx? (· = "value") (csvHeader csv) with _ | j <;>
        rw [hv] at h
      · exact absurd h (by simp)
      · rw [Except.ok.injEq] at h
        subst h
        refine ⟨?_, ?_, ?_, by with_unfolding_all rfl⟩
        · have hb := foldl_parseRow_length i j ((now : ℤ) - (FIVE_YEARS_MS : ℤ))
            (csvLines csv).tail []
          simp only [List.length_nil, List.length_tail] at hb ⊢
          omega
        · intro p hp
          rcases mem_foldl_parseRow hp with h | h
          · simp at h
          · exact h.1
        · intro p hp t ht
          rcases mem_foldl_parseRow hp with h | h
          · simp at h
          · exact h.2 t ht

/-- Counterexample for C2 as stated: a data row whose non-empty
`dateTime` does not parse at all is returned by `parseHistoricCSV`
(`new Date('not-a-date') < fiveYearsAgo` is a `NaN` comparison, hence
false), so not every returned point's `dateTime` parses to an instant
within the five-year window. -/
theorem parseHistoricCSV_fiveYear_cex :
    parseHistoricCSV 1767225600000 csvBadDate =
      .ok [{ dateTime := "not-a-date", value := 5, uval := some 5 }] ∧
    parseDT "not-a-date" = none := by
  exact ⟨by with_unfolding_all rfl, rfl⟩

/-- Witness applying C2 to the concrete six-years/four-years scenario. -/
theorem parseHistoricCSV_fiveYear_witness :
    ([{ dateTime := "2022-01-01T00:00:00", value := 2, uval := some 2 }] : List Point).length ≤
      (csvLines csvScenario).length - 1 ∧
    parseHistoricCSV 1767225600000 csvScenario =
      .ok [{ dateTime := "2022-01-01T00:00:00", value := 2, uval := some 2 }] := by
  have h := parseHistoricCSV_fiveYear_spec 1767225600000 csvScenario
    [{ dateTime := "2022-01-01T00:00:00", value := 2, uval := some 2 }]
    (by with_unfolding_all rfl)
  exact ⟨h.1, h.2.2.2⟩

lemma mergeData_eq {H L : List Point} (hH : H ≠ []) (hL : L ≠ []) :
    mergeData H L = List.insertionSort dateLe
      (L ++ H.filter (fun p => !(L.any (fun r => r.dateTime == p.dateTime)))) := by
  simp [mergeData, hH, hL]

/-- C1: with both inputs non-empty, `mergeData` returns exactly the live
points plus the historic points whose `dateTime` string matches no live
point, sorted ascending by parsed `dateTime`; with either input empty
the other is returned unchanged, unsorted. -/
theorem mergeData_merge_spec (H L : List Point) (hH : H ≠ []) (hL : L ≠ []) :
    (mergeData H L).Perm
      (L ++ H.filter (fun p => !(L.any (fun r => r.dateTime == p.dateTime)))) ∧
    List.Sorted dateLe (mergeData H L) ∧
    mergeData [] L = L ∧ mergeData H [] = H := by
  refine ⟨?_, ?_, by simp [mergeData], by simp [mergeData, hH]⟩
  · rw [mergeData_eq hH hL]
    exact List.perm_insertionSort _ _
  · rw [mergeData_eq hH hL]
    exact List.sorted_insertionSort _ _

/-- Witness applying C1 to the repository's merge-test sample. -/
theorem mergeData_merge_spec_witness :
    List.Sorted dateLe (mergeData histSample liveSample) ∧
    (mergeData histSample liveSample).Perm
      (liveSample ++ histSample.filter
        (fun p => !(liveSample.any (fun r => r.dateTime == p.dateTime)))) := by
  have h := mergeData_merge_spec histSample liveSample (by decide) (by decide)
  exact ⟨h.2.1, h.1⟩

/-- Counterexample for C3 as stated: duplicate timestamps inside a
single input survive the merge (the realtime map only deduplicates
historic against live), and with an empty historic input an unsorted
live feed is returned unsorted. -/
theorem mergeData_dedup_cex :
    ¬ List.Pairwise (fun a b => a.dateTime ≠ b.dateTime) (mergeData histDup liveDup) ∧
    ¬ List.Sorted dateLe (mergeData [] liveUnsorted) := by
  exact ⟨by decide, by decide⟩

/-- C3 (amended): with both inputs non-empty the merge result is sorted
ascending by parsed `dateTime`, and for every timestamp the result's
points carrying it are exactly (as a multiset) the live points carrying
it when live has any — the historic points for that timestamp are
dropped, live wins — and exactly the historic points carrying it
otherwise; so no timestamp is shared between a historic and a live
point, duplicates within one input are preserved, and with one input
empty the other is returned unchanged, unsorted. -/
theorem mergeData_dedup_spec (H L : List Point) (hH : H ≠ []) (hL : L ≠ []) :
    List.Sorted dateLe (mergeData H L) ∧
    (∀ t, ((mergeData H L).filter (fun p => p.dateTime == t)).Perm
      (if L.any (fun r => r.dateTime == t)
       then L.filter (fun p => p.dateTime == t)
       else H.filter (fun p => p.dateTime == t))) ∧
    mergeData [] L = L ∧ mergeData H [] = H := by
  refine ⟨?_, ?_, by simp [mergeData], by simp [mergeData, hH]⟩
  · rw [mergeData_eq hH hL]
    exact List.sorted_insertionSort _ _
  · intro t
    have hperm := List.perm_insertionSort dateLe
      (L ++ H.filter (fun p => !(L.any (fun r => r.dateTime == p.dateTime))))
    have hfp : ((mergeData H L).filter (fun p => p.dateTime == t)).Perm
        ((L ++ H.filter (fun p => !(L.any (fun r => r.dateTime == p.dateTime)))).filter
          (fun p => p.dateTime == t)) := by
      rw [mergeData_eq hH hL]
      exact hperm.filter _
    rw [List.filter_append] at hfp
    by_cases hany : L.any (fun r => r.dateTime == t) = true
    · rw [if_pos hany]
      have hnil : (H.filter (fun p => !(L.any (fun r => r.dateTime == p.dateTime)))).filter
          (fun p => p.dateTime == t) = [] := by
        rw [List.filter_filter, List.filter_eq_nil_iff]
        intro p hp
        simp only [Bool.and_eq_true, beq_iff_eq, Bool.not_eq_true', List.any_eq_false,
          not_and]
        intro hpt
        push_neg
        rcases List.any_eq_true.mp hany with ⟨r, hr, hrt⟩
        simp only [beq_iff_eq] at hrt
        exact ⟨r, hr, by rw [hrt, hpt]⟩
      rw [hnil, List.append_nil] at hfp
      exact hfp
    · rw [if_neg hany]
      have hany' : L.any (fun r => r.dateTime == t) = false := by
        simpa using hany
      have hLnil : L.filter (fun p => p.dateTime == t) = [] := by
        rw [List.filter_eq_nil_iff]
        intro p hp
        have := List.any_eq_false.mp hany' p hp
        simpa using this
      have hsame : (H.filter (fun p => !(L.any (fun r => r.dateTime == p.dateTime)))).filter
          (fun p => p.dateTime == t) = H.filter (fun p => p.dateTime == t) := by
        rw [List.filter_filter]
        apply List.filter_congr
        intro p hp
        by_cases hpt : p.dateTime = t
        · have h1 : (p.dateTime == t) = true := by simp [hpt]
          rw [h1, Bool.true_and]
          have h2 : (L.any fun r => r.dateTime == p.dateTime) = false := by
            rw [hpt]
            exact hany'
          rw [h2]
          rfl
        · have h1 : (p.dateTime == t) = false := by simp [hpt]
          rw [h1, Bool.false_and]
      rw [hLnil, hsame, List.nil_append] at hfp
      exact hfp

/-- Witness applying the amended C3 to a concrete pair of inputs: the
colliding timestamp, the sortedness conjunct, and one empty-input
identity. -/
theorem mergeData_dedup_spec_witness :
    List.Sorted dateLe (mergeData histSample liveSample) ∧
    ((mergeData histSample liveSample).filter
        (fun p => p.dateTime == "2024-01-15T11:00:00")).Perm
      (if liveSample.any (fun r => r.dateTime == "2024-01-15T11:00:00")
       then liveSample.filter (fun p => p.dateTime == "2024-01-15T11:00:00")
       else histSample.filter (fun p => p.dateTime == "2024-01-15T11:00:00")) ∧
    mergeData [] liveSample = liveSample := by
  have h := mergeData_dedup_spec histSample liveSample (by decide) (by decide)
  exact ⟨h.1, h.2.1 "2024-01-15T11:00:00", h.2.2.1⟩

lemma dpLoop_markers_subset (points : List Point) (sqTolerance : ℚ) :
    ∀ (fuel : ℕ) (stack : List (ℕ × ℕ)) (markers : Finset ℕ),
      markers ⊆ dpLoop points sqTolerance fuel stack markers := by
  intro fuel
  induction fuel with
  | zero =>
    intro stack markers
    simp [dpLoop]
  | succ n ih =>
    intro stack markers
    cases stack with
    | nil => simp [dpLoop]
    | cons head rest =>
      obtain ⟨first, last⟩ := head
      simp only [dpLoop]
      split
      · exact (Finset.subset_insert _ _).trans (ih _ _)
      · exact ih _ _

lemma zero_mem_simplifyMarkers (points : List Point) (tolerance : ℚ) :
    0 ∈ simplifyMarkers points tolerance := by
  apply dpLoop_markers_subset
  simp

lemma last_mem_simplifyMarkers (points : List Point) (tolerance : ℚ) :
    points.length - 1 ∈ simplifyMarkers points tolerance := by
  apply dpLoop_markers_subset
  simp

lemma enum_map_setSig (pts : List Point) :
    pts.enum.map (fun ip : ℕ × Point => setSig ip.2) = pts.map setSig := by
  rw [show (fun ip : ℕ × Point => setSig ip.2) = (setSig ∘ Prod.snd) from rfl,
    ← List.map_map, List.enum_map_snd]

lemma mem_enum_of_getElem {pts : List Point} {i : ℕ} (h : i < pts.length) :
    (i, pts[i]) ∈ pts.enum := by
  have hlen : i < pts.enum.length := by
    rw [List.enum_length]
    exact h
  have := List.getElem_enum pts i hlen
  rw [← this]
  exact List.getElem_mem hlen

lemma marked_mem_simplify {pts : List Point} {tol : ℚ} {i : ℕ}
    (hlen : 2 < pts.length) (hi : i < pts.length)
    (hm : i ∈ simplifyMarkers pts tol) :
    setSig pts[i] ∈ simplify pts tol := by
  rw [simplify, if_neg (by omega)]
  rw [List.mem_map]
  refine ⟨(i, pts[i]), ?_, rfl⟩
  rw [List.mem_filter]
  exact ⟨mem_enum_of_getElem hi, by simpa using hm⟩

/-- C5: for inputs longer than two points, `simplify` returns a
subsequence of the (flagged) input that keeps both endpoints, never
grows, and flags every returned point `isSignificant`; inputs of at
most two points are returned unchanged, with no flag added. -/
theorem simplify_spec (pts : List Point) (tol : ℚ) :
    (2 < pts.length →
      (simplify pts tol).Sublist (pts.map setSig) ∧
      (simplify pts tol).length ≤ pts.length ∧
      (∀ p ∈ simplify pts tol, p.isSignificant = some true) ∧
      (∀ q, pts.head? = some q → setSig q ∈ simplify pts tol) ∧
      (∀ q, pts.getLast? = some q → setSig q ∈ simplify pts tol)) ∧
    (pts.length ≤ 2 → simplify pts tol = pts) := by
  constructor
  · intro hlen
    have hsub : (simplify pts tol).Sublist (pts.map setSig) := by
      rw [simplify, if_neg (by omega)]
      have h1 := (List.filter_sublist
        (p := fun ip : ℕ × Point => decide (ip.1 ∈ simplifyMarkers pts tol)) pts.enum)
      have h2 := h1.map (fun ip : ℕ × Point => setSig ip.2)
      rwa [enum_map_setSig] at h2
    refine ⟨hsub, ?_, ?_, ?_, ?_⟩
    · have := hsub.length_le
      rwa [List.length_map] at this
    · intro p hp
      rw [simplify, if_neg (by omega), List.mem_map] at hp
      rcases hp with ⟨ip, _, rfl⟩
      rfl
    · intro q hq
      have h0 : 0 < pts.length := by omega
      have hq0 : pts[0]? = some q := by
        rw [← List.head?_eq_getElem?]
        exact hq
      rw [List.getElem?_eq_getElem h0] at hq0
      rw [← Option.some.inj hq0]
      exact marked_mem_simplify hlen h0 (zero_mem_simplifyMarkers pts tol)
    · intro q hq
      have h0 : pts.length - 1 < pts.length := by omega
      have hq0 : pts[pts.length - 1]? = some q := by
        rw [← List.getLast?_eq_getElem?]
        exact hq
      rw [List.getElem?_eq_getElem h0] at hq0
      rw [← Option.some.inj hq0]
      exact marked_mem_simplify hlen h0 (last_mem_simplifyMarkers pts tol)
  · intro hlen
    rw [simplify, if_pos hlen]

/-- Witness applying C5 at a four-point input with a spike, and at a
two-point input. -/
theorem simplify_spec_witness :
    (simplify ptsSpike 0).Sublist (ptsSpike.map setSig) ∧
    (simplify ptsSpike 0).length ≤ ptsSpike.length ∧
    simplify ptsPair 0 = ptsPair := by
  have h1 := (simplify_spec ptsSpike 0).1 (by decide)
  have h2 := (simplify_spec ptsPair 0).2 (by decide)
  exact ⟨h1.1, h1.2.1, h2⟩

lemma simplify_head_cons (tol : ℚ) (p0 : Point) (rest : List Point) :
    ∃ q tail2, simplify (p0 :: rest) tol = q :: tail2 ∧
      q.dateTime = p0.dateTime ∧ q.value = p0.value := by
  by_cases hlen : (p0 :: rest).length ≤ 2
  · refine ⟨p0, rest, ?_, rfl, rfl⟩
    rw [simplify, if_pos hlen]
  · rw [simplify, if_neg hlen, List.enum_cons]
    rw [List.filter_cons_of_pos
      (by simpa using zero_mem_simplifyMarkers (p0 :: rest) tol)]
    exact ⟨setSig p0, _, rfl, rfl, rfl⟩

lemma markFirst_cons (o0 : Point) (orest : List Point) (f0 : Point) (frest : List Point) :
    markFirstForecastSignificance (o0 :: orest) (f0 :: frest) =
      { f0 with
        isSignificant := some (!(sortKey o0 == sortKey f0 && o0.value == f0.value)) } ::
        frest := rfl

/-- C8: in the Processing phase, with both sequences non-empty, the
first forecast point of `processData`'s output carries
`isSignificant = true` exactly when its `(parsed dateTime, value)` pair
differs from the latest observed point, element 0 of the unreversed
observed array. -/
theorem processData_forecast_boundary_spec (dc : DataCache)
    (ho : dc.observed ≠ []) (hf : dc.forecast ≠ []) :
    ((processData dc).forecastPoints).head?.map (fun p => p.isSignificant) =
      some (some (firstForecastDiffersB dc)) := by
  obtain ⟨o0, orest, hoeq⟩ : ∃ o0 orest, dc.observed = o0 :: orest := by
    cases h : dc.observed with
    | nil => exact absurd h ho
    | cons a l => exact ⟨a, l, rfl⟩
  obtain ⟨f0, frest, hfeq⟩ : ∃ f0 frest, dc.forecast = f0 :: frest := by
    cases h : dc.forecast with
    | nil => exact absurd h hf
    | cons a l => exact ⟨a, l, rfl⟩
  have hdiff : firstForecastDiffersB dc =
      !(sortKey o0 == sortKey f0 && o0.value == f0.value) := by
    unfold firstForecastDiffersB latestObservedPoint firstForecastPoint
    rw [hoeq, hfeq]
    rfl
  have hfp : (processData dc).forecastPoints =
      List.map (fun l => { l with ptype := some "forecast" })
        (markFirstForecastSignificance dc.observed (simplifyByType dc.forecast dc.type)) := by
    unfold processData
    dsimp only
    rw [if_pos hf]
    unfold processForecastData
    dsimp only
  rw [hfp, hoeq, hfeq]
  by_cases htype : dc.type = "river"
  · rw [simplifyByType, if_pos htype, markFirst_cons, hdiff]
    rfl
  · rw [simplifyByType, if_neg htype]
    obtain ⟨q, tail2, hq, hqd, hqv⟩ := simplify_head_cons
      (if dc.type = "tide" then TOLERANCE_TIDE else TOLERANCE_DEFAULT) f0 frest
    have hkey : sortKey q = sortKey f0 := by
      unfold sortKey
      rw [hqd]
    rw [hq, markFirst_cons, hkey, hqv, hdiff]
    rfl

/-- Witness applying C8 at a concrete cache whose boundary values
differ, evaluating the difference test to `true`. -/
theorem processData_forecast_boundary_witness :
    ((processData dcSample).forecastPoints).head?.map (fun p => p.isSignificant) =
      some (some true) := by
  have h := processData_forecast_boundary_spec dcSample (by decide) (by decide)
  rw [h]
  with_unfolding_all decide

lemma mem_foldl_bucketStep (key : ℕ → ℕ) :
    ∀ (data : List Point) (st : List Point × Option ℕ) (p : Point),
      p ∈ (data.foldl (bucketStep key) st).1 → p ∈ st.1 ∨ p ∈ data := by
  intro data
  induction data with
  | nil => exact fun st p hp => Or.inl hp
  | cons item rest ih =>
    intro st p hp
    rw [List.foldl_cons] at hp
    rcases ih _ p hp with h | h
    · unfold bucketStep at h
      dsimp only at h
      split at h
      · rcases List.mem_append.mp h with h2 | h2
        · exact Or.inl h2
        · exact Or.inr (List.mem_cons_self item rest |> fun hm =>
            (List.mem_singleton.mp h2) ▸ hm)
      · exact Or.inl h
    · exact Or.inr (List.mem_cons_of_mem item h)

lemma mem_keepFirstPerBucket {key : ℕ → ℕ} {data : List Point} {p : Point}
    (hp : p ∈ keepFirstPerBucket key data) : p ∈ data := by
  rcases mem_foldl_bucketStep key data ([], none) p hp with h | h
  · simp at h
  · exact h

lemma mem_weekUpd {m : List (ℤ × Point)} {item : Point} {e : ℤ × Point}
    (he : e ∈ weekUpd m item) : e ∈ m ∨ e.2 = item := by
  unfold weekUpd at he
  dsimp only at he
  split at he
  · rcases List.mem_append.mp he with h | h
    · exact Or.inl h
    · rw [List.mem_singleton.mp h]
      exact Or.inr rfl
  · split at he
    · rcases List.mem_map.mp he with ⟨kv, hkv, heq⟩
      by_cases hk : kv.1 = wk item
      · rw [if_pos hk] at heq
        rw [← heq]
        exact Or.inr rfl
      · rw [if_neg hk] at heq
        exact Or.inl (heq ▸ hkv)
    · exact Or.inl he

lemma mem_foldl_weekUpd :
    ∀ (data : List Point) (m : List (ℤ × Point)) (e : ℤ × Point),
      e ∈ data.foldl weekUpd m → e ∈ m ∨ e.2 ∈ data := by
  intro data
  induction data with
  | nil => exact fun m e he => Or.inl he
  | cons item rest ih =>
    intro m e he
    rw [List.foldl_cons] at he
    rcases ih _ e he with h | h
    · rcases mem_weekUpd h with h2 | h2
      · exact Or.inl h2
      · exact Or.inr (h2 ▸ List.mem_cons_self item rest)
    · exact Or.inr (List.mem_cons_of_mem item h)

/-- C10: every point returned by `downsampleForStyleB` is one of the
input points, for every input and every range token — the function only
selects existing points. -/
theorem downsample_subset_spec (data : List Point) (range : String) :
    ∀ p ∈ downsampleForStyleB data range, p ∈ data := by
  intro p hp
  unfold downsampleForStyleB at hp
  split at hp
  · simp at hp
  · split at hp
    · exact hp
    · split at hp
      · exact mem_keepFirstPerBucket hp
      · split at hp
        · exact mem_keepFirstPerBucket hp
        · split at hp
          · have hmem := (List.perm_insertionSort dateLe
              ((weekGroups data).map Prod.snd)).mem_iff.mp hp
            rcases List.mem_map.mp hmem with ⟨e, he, rfl⟩
            rcases mem_foldl_weekUpd data [] e he with h | h
            · simp at h
            · exact h
          · exact hp

/-- Witness applying C10 at a singleton input and an unknown token. -/
theorem downsample_subset_spec_witness :
    dsPoint ∈ ([dsPoint] : List Point) :=
  downsample_subset_spec [dsPoint] "unknown" dsPoint (by decide)

lemma wlookup_append (k : ℤ) :
    ∀ (m l : List (ℤ × Point)),
      wlookup k (m ++ l) =
        match wlookup k m with
        | some p => some p
        | none => wlookup k l := by
  intro m l
  induction m with
  | nil => simp [wlookup]
  | cons a rest ih =>
    obtain ⟨k', p⟩ := a
    by_cases hk : k' = k
    · simp [wlookup, hk]
    · simp only [List.cons_append, wlookup, if_neg hk]
      exact ih

lemma wlookup_map_replace (k0 : ℤ) (item : Point) (k : ℤ) :
    ∀ (m : List (ℤ × Point)),
      wlookup k (m.map (fun kv => if kv.1 = k0 then (k0, item) else kv)) =
        if k0 = k then (wlookup k m).map (fun _ => item) else wlookup k m := by
  intro m
  induction m with
  | nil => simp [wlookup]
  | cons a rest ih =>
    obtain ⟨k', p⟩ := a
    simp only [List.map_cons]
    by_cases hk0 : k' = k0
    · rw [if_pos hk0]
      by_cases hk : k0 = k
      · rw [if_pos hk]
        rw [wlookup, if_pos hk]
        rw [wlookup, if_pos (hk0.trans hk)]
        rfl
      · rw [if_neg hk]
        rw [wlookup, if_neg hk]
        rw [ih, if_neg hk]
        rw [wlookup, if_neg (fun h : k' = k => hk (hk0.symm.trans h))]
    · rw [if_neg hk0]
      rw [wlookup]
      by_cases hk : k' = k
      · rw [if_pos hk]
        have hk0k : ¬ k0 = k := fun h => hk0 (hk.trans h.symm)
        rw [if_neg hk0k, wlookup, if_pos hk]
      · rw [if_neg hk, ih]
        by_cases h2 : k0 = k
        · rw [if_pos h2, if_pos h2, wlookup, if_neg hk]
        · rw [if_neg h2, if_neg h2, wlookup, if_neg hk]

lemma weekUpd_eq_append {m : List (ℤ × Point)} {item : Point}
    (h : wlookup (wk item) m = none) :
    weekUpd m item = m ++ [(wk item, item)] := by
  unfold weekUpd
  dsimp only
  rw [h]

lemma weekUpd_eq_replace {m : List (ℤ × Point)} {item cur : Point}
    (h : wlookup (wk item) m = some cur) (hlt : cur.value < item.value) :
    weekUpd m item =
      m.map (fun kv => if kv.1 = wk item then (wk item, item) else kv) := by
  unfold weekUpd
  dsimp only
  rw [h]
  dsimp only
  rw [if_pos hlt]

lemma weekUpd_eq_self {m : List (ℤ × Point)} {item cur : Point}
    (h : wlookup (wk item) m = some cur) (hlt : ¬ cur.value < item.value) :
    weekUpd m item = m := by
  unfold weekUpd
  dsimp only
  rw [h]
  dsimp only
  rw [if_neg hlt]

lemma wlookup_weekUpd (m : List (ℤ × Point)) (item : Point) (k : ℤ) :
    wlookup k (weekUpd m item) =
      if wk item = k then
        match wlookup k m with
        | none => some item
        | some cur => some (if cur.value < item.value then item else cur)
      else wlookup k m := by
  rcases h : wlookup (wk item) m with _ | cur
  · rw [weekUpd_eq_append h, wlookup_append]
    by_cases hk : wk item = k
    · rw [if_pos hk, ← hk, h]
      simp [wlookup]
    · rw [if_neg hk]
      cases h2 : wlookup k m with
      | none => simp [wlookup, hk]
      | some p => rfl
  · by_cases hlt : cur.value < item.value
    · rw [weekUpd_eq_replace h hlt, wlookup_map_replace]
      by_cases hk : wk item = k
      · rw [if_pos hk, if_pos hk, ← hk, h]
        dsimp only
        rw [if_pos hlt]
        rfl
      · rw [if_neg hk, if_neg hk]
    · rw [weekUpd_eq_self h hlt]
      by_cases hk : wk item = k
      · rw [if_pos hk, ← hk, h]
        dsimp only
        rw [if_neg hlt]
      · rw [if_neg hk]

lemma wlookup_foldl_isSome :
    ∀ (data : List Point) (m : List (ℤ × Point)) (k : ℤ),
      (wlookup k (data.foldl weekUpd m)).isSome ↔
        (wlookup k m).isSome ∨ k ∈ data.map wk := by
  intro data
  induction data with
  | nil => simp
  | cons item rest ih =>
    intro m k
    rw [List.foldl_cons, ih, wlookup_weekUpd]
    by_cases hk : wk item = k
    · rw [if_pos hk]
      cases h2 : wlookup k m with
      | none => simp [hk]
      | some cur => simp [hk]
    · rw [if_neg hk]
      simp only [List.map_cons, List.mem_cons]
      constructor
      · rintro (h | h)
        · exact Or.inl h
        · exact Or.inr (Or.inr h)
      · rintro (h | h | h)
        · exact Or.inl h
        · exact absurd h.symm hk
        · exact Or.inr h

lemma wlookup_foldl_mono :
    ∀ (data : List Point) (m : List (ℤ × Point)) (k : ℤ) (c p : Point),
      wlookup k m = some c → wlookup k (data.foldl weekUpd m) = some p →
      c.value ≤ p.value := by
  intro data
  induction data with
  | nil =>
    intro m k c p hc hp
    rw [List.foldl_nil, hc] at hp
    rw [Option.some.inj hp]
  | cons item rest ih =>
    intro m k c p hc hp
    rw [List.foldl_cons] at hp
    by_cases hk : wk item = k
    · have hup : wlookup k (weekUpd m item) =
          some (if c.value < item.value then item else c) := by
        rw [wlookup_weekUpd, if_pos hk, hc]
      have hle : c.value ≤ (if c.value < item.value then item else c).value := by
        split
        · rename_i hlt
          exact le_of_lt hlt
        · exact le_refl _
      exact hle.trans (ih _ k _ p hup hp)
    · have hup : wlookup k (weekUpd m item) = some c := by
        rw [wlookup_weekUpd, if_neg hk]
        exact hc
      exact ih _ k _ p hup hp

lemma wlookup_foldl_max :
    ∀ (data : List Point) (m : List (ℤ × Point)) (k : ℤ) (p : Point),
      wlookup k (data.foldl weekUpd m) = some p →
      ∀ q ∈ data, wk q = k → q.value ≤ p.value := by
  intro data
  induction data with
  | nil =>
    intro m k p _ q hq
    exact absurd hq (List.not_mem_nil q)
  | cons item rest ih =>
    intro m k p hp q hq hqk
    rw [List.foldl_cons] at hp
    rcases List.mem_cons.mp hq with heq | hq2
    · subst heq
      have hup : ∃ c, wlookup k (weekUpd m q) = some c ∧ q.value ≤ c.value := by
        rw [wlookup_weekUpd, if_pos hqk]
        cases h2 : wlookup k m with
        | none => exact ⟨q, rfl, le_refl _⟩
        | some cur =>
          refine ⟨if cur.value < q.value then q else cur, rfl, ?_⟩
          split
          · exact le_refl _
          · rename_i hlt
            exact le_of_not_lt hlt
      rcases hup with ⟨c, hc, hle⟩
      exact hle.trans (wlookup_foldl_mono rest _ k c p hc hp)
    · exact ih _ k p hp q hq2 hqk

lemma wlookup_foldl_origin :
    ∀ (data : List Point) (m : List (ℤ × Point)) (k : ℤ) (p : Point),
      wlookup k (data.foldl weekUpd m) = some p →
      wlookup k m = some p ∨ p ∈ data := by
  intro data
  induction data with
  | nil =>
    intro m k p hp
    exact Or.inl hp
  | cons item rest ih =>
    intro m k p hp
    rw [List.foldl_cons] at hp
    rcases ih _ k p hp with h | h
    · rw [wlookup_weekUpd] at h
      by_cases hk : wk item = k
      · rw [if_pos hk] at h
        cases h2 : wlookup k m with
        | none =>
          rw [h2] at h
          dsimp only at h
          rw [← Option.some.inj h]
          exact Or.inr (List.mem_cons_self _ _)
        | some cur =>
          rw [h2] at h
          dsimp only at h
          by_cases hlt : cur.value < item.value
          · rw [if_pos hlt] at h
            rw [← Option.some.inj h]
            exact Or.inr (List.mem_cons_self _ _)
          · rw [if_neg hlt] at h
            have hcp : cur = p := Option.some.inj h
            rw [← hcp]
            exact Or.inl rfl
      · rw [if_neg hk] at h
        exact Or.inl h
    · exact Or.inr (List.mem_cons_of_mem _ h)

lemma wlookup_foldl_wk :
    ∀ (data : List Point) (m : List (ℤ × Point)),
      (∀ k' p', wlookup k' m = some p' → wk p' = k') →
      ∀ (k : ℤ) (p : Point),
        wlookup k (data.foldl weekUpd m) = some p → wk p = k := by
  intro data
  induction data with
  | nil =>
    intro m hinv k p hp
    exact hinv k p hp
  | cons item rest ih =>
    intro m hinv k p hp
    rw [List.foldl_cons] at hp
    refine ih _ ?_ k p hp
    intro k' p' hp'
    rw [wlookup_weekUpd] at hp'
    by_cases hk : wk item = k'
    · rw [if_pos hk] at hp'
      cases h2 : wlookup k' m with
      | none =>
        rw [h2] at hp'
        dsimp only at hp'
        rw [← Option.some.inj hp']
        exact hk
      | some cur =>
        rw [h2] at hp'
        dsimp only at hp'
        by_cases hlt : cur.value < item.value
        · rw [if_pos hlt] at hp'
          rw [← Option.some.inj hp']
          exact hk
        · rw [if_neg hlt] at hp'
          rw [← Option.some.inj hp']
          exact hinv k' cur h2
    · rw [if_neg hk] at hp'
      exact hinv k' p' hp'

lemma wlookup_eq_none_iff (k : ℤ) :
    ∀ (m : List (ℤ × Point)), wlookup k m = none ↔ k ∉ m.map Prod.fst := by
  intro m
  induction m with
  | nil => simp [wlookup]
  | cons a rest ih =>
    obtain ⟨k', p⟩ := a
    by_cases hk : k' = k
    · simp [wlookup, hk]
    · simp only [wlookup, if_neg hk, List.map_cons, List.mem_cons, ih]
      constructor
      · rintro hn (h | h)
        · exact hk h.symm
        · exact hn h
      · intro hn h
        exact hn (Or.inr h)

lemma weekUpd_keys_nodup {m : List (ℤ × Point)} {item : Point}
    (hm : (m.map Prod.fst).Nodup) : ((weekUpd m item).map Prod.fst).Nodup := by
  rcases h : wlookup (wk item) m with _ | cur
  · rw [weekUpd_eq_append h]
    rw [List.map_append]
    rw [List.nodup_append]
    refine ⟨hm, List.nodup_singleton _, ?_⟩
    intro a ha hb
    rw [List.map_singleton, List.mem_singleton] at hb
    subst hb
    exact (wlookup_eq_none_iff _ m).mp h ha
  · by_cases hlt : cur.value < item.value
    · rw [weekUpd_eq_replace h hlt]
      have hkeys : (m.map (fun kv => if kv.1 = wk item then (wk item, item) else kv)).map
          Prod.fst = m.map Prod.fst := by
        rw [List.map_map]
        apply List.map_congr_left
        intro kv _
        by_cases hk : kv.1 = wk item
        · simp [hk]
        · simp [hk]
      rw [hkeys]
      exact hm
    · rw [weekUpd_eq_self h hlt]
      exact hm

lemma foldl_weekUpd_keys_nodup :
    ∀ (data : List Point) (m : List (ℤ × Point)),
      (m.map Prod.fst).Nodup → ((data.foldl weekUpd m).map Prod.fst).Nodup := by
  intro data
  induction data with
  | nil => exact fun m hm => hm
  | cons item rest ih =>
    intro m hm
    rw [List.foldl_cons]
    exact ih _ (weekUpd_keys_nodup hm)

lemma wlookup_of_mem_nodup :
    ∀ {m : List (ℤ × Point)} {k : ℤ} {p : Point},
      (m.map Prod.fst).Nodup → (k, p) ∈ m → wlookup k m = some p := by
  intro m
  induction m with
  | nil =>
    intro k p _ hmem
    exact absurd hmem (List.not_mem_nil _)
  | cons a rest ih =>
    intro k p hnd hmem
    obtain ⟨k', q⟩ := a
    rw [List.map_cons, List.nodup_cons] at hnd
    rcases List.mem_cons.mp hmem with heq | hmem2
    · rw [Prod.mk.injEq] at heq
      rw [wlookup, if_pos heq.1.symm ]
      rw [heq.2]
    · by_cases hk : k' = k
      · exfalso
        subst hk
        exact hnd.1 (List.mem_map.mpr ⟨(k', p), hmem2, rfl⟩)
      · rw [wlookup, if_neg hk]
        exact ih hnd.2 hmem2

/-- C4: on a non-empty input, the `5y` branch of `downsampleForStyleB`
returns a list sorted ascending by parsed `dateTime`, with exactly one
point per non-empty calendar-week bucket (weeks starting Sunday 00:00),
each returned point being an input point of its week whose value no
input point of that week exceeds. -/
theorem downsample_fiveYear_weekly_spec (data : List Point) (hne : data ≠ []) :
    List.Sorted dateLe (downsampleForStyleB data "5y") ∧
    ((downsampleForStyleB data "5y").map wk).Nodup ∧
    (∀ w, w ∈ data.map wk ↔ w ∈ (downsampleForStyleB data "5y").map wk) ∧
    (∀ p ∈ downsampleForStyleB data "5y",
      p ∈ data ∧ ∀ q ∈ data, wk q = wk p → q.value ≤ p.value) := by
  have hg : weekGroups data = data.foldl weekUpd [] := rfl
  have hds : downsampleForStyleB data "5y" =
      List.insertionSort dateLe ((weekGroups data).map Prod.snd) := by
    unfold downsampleForStyleB
    rw [if_neg hne, if_neg (by decide), if_neg (by decide), if_neg (by decide),
      if_pos rfl]
  have hkeysnd : ((weekGroups data).map Prod.fst).Nodup := by
    rw [hg]
    exact foldl_weekUpd_keys_nodup data [] (by simp)
  have hbase : ∀ (k' : ℤ) (p' : Point),
      wlookup k' ([] : List (ℤ × Point)) = some p' → wk p' = k' := by
    intro k' p' h
    simp [wlookup] at h
  have hwk : ∀ e ∈ weekGroups data, wk e.2 = e.1 := by
    intro e he
    obtain ⟨k, p⟩ := e
    refine wlookup_foldl_wk data [] hbase k p ?_
    rw [← hg]
    exact wlookup_of_mem_nodup hkeysnd he
  have hmapkeys : ((weekGroups data).map Prod.snd).map wk =
      (weekGroups data).map Prod.fst := by
    rw [List.map_map]
    exact List.map_congr_left (fun e he => hwk e he)
  have hperm := List.perm_insertionSort dateLe ((weekGroups data).map Prod.snd)
  refine ⟨?_, ?_, ?_, ?_⟩
  · rw [hds]
    exact List.sorted_insertionSort _ _
  · rw [hds]
    have hpm := hperm.map wk
    rw [hmapkeys] at hpm
    exact hpm.nodup_iff.mpr hkeysnd
  · intro w
    rw [hds]
    rw [(hperm.map wk).mem_iff, hmapkeys]
    constructor
    · intro hw
      have hsome : (wlookup w (weekGroups data)).isSome := by
        rw [hg, wlookup_foldl_isSome data [] w]
        exact Or.inr hw
      by_contra hnk
      rw [(wlookup_eq_none_iff w _).mpr hnk] at hsome
      simp at hsome
    · intro hw
      have hsome : (wlookup w (weekGroups data)).isSome := by
        cases hl : wlookup w (weekGroups data) with
        | none => exact absurd ((wlookup_eq_none_iff w _).mp hl) (fun h => h hw)
        | some p => simp
      rw [hg, wlookup_foldl_isSome data [] w] at hsome
      rcases hsome with h | h
      · simp [wlookup] at h
      · exact h
  · intro p hp
    rw [hds] at hp
    have hmem := hperm.mem_iff.mp hp
    rcases List.mem_map.mp hmem with ⟨e, he, heq⟩
    obtain ⟨k, p'⟩ := e
    dsimp only at heq
    subst heq
    have hlk : wlookup k (data.foldl weekUpd []) = some p' := by
      rw [← hg]
      exact wlookup_of_mem_nodup hkeysnd he
    have hkp : wk p' = k := hwk (k, p') he
    constructor
    · rcases wlookup_foldl_origin data [] k p' hlk with h | h
      · simp [wlookup] at h
      · exact h
    · intro q hq hqk
      apply wlookup_foldl_max data [] k p' hlk q hq
      rw [hqk, hkp]

/-- Witness applying C4 at a concrete four-point, two-week input. -/
theorem downsample_fiveYear_weekly_spec_witness :
    List.Sorted dateLe (downsampleForStyleB pts5y "5y") ∧
    ((downsampleForStyleB pts5y "5y").map wk).Nodup := by
  have h := downsample_fiveYear_weekly_spec pts5y (by decide)
  exact ⟨h.1, h.2.1⟩
